import Mathlib

/-!
Verification of the MemLeakTracker memory-leak tracking engine
(src/MemLeakTracker.cpp) against its natural-language specification.

The tracker overrides the global allocation and deallocation entry points,
keeps a registry (`std::unordered_map<const void*, AllocationInfo>`) of
currently-live allocations guarded by a mutex, suppresses re-entrant
tracking with a `paused` flag, and reports leaks at teardown.

Shallow embedding conventions:
* addresses are `Nat`; the null pointer is `0` (C++ `p` as a condition is
  `p != nullptr`);
* the `unordered_map` is an association list with unique keys
  (`insert_or_assign` / `erase` / lookup are embedded below); iteration
  order of the map is unspecified in C++, the list order stands in for it;
* a captured stack (`StackTracker`, an array of `STACK_TRACE_DEPTH` return
  addresses obtained from `RtlCaptureStackBackTrace`, zero-filled) is a
  `List Nat` supplied by the environment at each hook call;
* the symbolication service (`SymGetLineFromAddr`) is a parameter
  `resolve : Nat → Option (String × Nat)` returning a file/line pair;
* every `OutputDebugString` call emits one `OutLine`; `render` gives the
  exact text the source formats for each line;
* the serialized critical section is implicit: each registry operation is
  one atomic step, matching the source where every operation body runs
  entirely under `Lock cs( critsec )`.
-/

namespace LeakTracker

/-- STACK_TRACE_DEPTH from the source configuration section. -/
def STACK_TRACE_DEPTH : Nat := 10

/-- One record of the registry: `AllocationInfo` from the source — the
requested size plus the stack captured at allocation time. -/
structure AllocationInfo where
  size : Nat
  stack : List Nat
deriving DecidableEq, Repr

/-- One `OutputDebugString` emission, by which source format string produced it. -/
inductive OutLine where
  | memleaksHeader
  | leak (size : Nat)
  | frame (file : String) (line : Nat)
  | unresolvedAddress (addr : Nat)
  | stackDumpEnd
  | total (sum : Nat)
  | noLeaksBanner
  | untrackedFreeError
deriving DecidableEq, Repr

/-- One hexadecimal digit as `%p` prints it: `0`-`9`, then uppercase `A`-`F`. -/
def hexDigit (n : Nat) : Char :=
  if n < 10 then Char.ofNat (48 + n) else Char.ofNat (55 + n)

/-- The low `w` hexadecimal digits of `a`, most significant first,
zero-padded to exactly `w` characters. -/
def hexChars : Nat → Nat → List Char
  | 0, _ => []
  | w + 1, a => hexChars w (a / 16) ++ [hexDigit (a % 16)]

/-- MSVC `%p` on the 64-bit build the source's `SymGetLineFromAddr64`
branch belongs to: the pointer as 16 zero-padded uppercase hexadecimal
digits (the value taken modulo 2^64). -/
def formatPointer (a : Nat) : String := String.mk (hexChars 16 a)

/-- The exact text each emission carries in the source (`_sntprintf_s`
format strings and the literal banners). -/
def render : OutLine → String
  | .memleaksHeader => "\n--- Memleaks start here ---\n\n"
  | .leak s => "Leak: " ++ toString s ++ " bytes\n"
  | .frame f l => "\t\t" ++ f ++ " (" ++ toString l ++ ")\n"
  | .unresolvedAddress a => "\t\tUnresolved address: " ++ formatPointer a ++ "\n"
  | .stackDumpEnd => "\n"
  | .total n => "\tTotal bytes leaked: " ++ toString n ++ "\n\n"
  | .noLeaksBanner => "**********************************************************\n\t\t\t\t\tNo memleaks found.\n**********************************************************\n\n"
  | .untrackedFreeError => "**** ERROR: Trying to delete non logged, possibly already freed memory block!\n"

/-- `StackTracker::DumpToDebugOutput`: for each of the captured slots, skip
null entries, emit the resolved file/line when symbolication succeeds and
the raw address otherwise, then a final blank line. -/
def DumpToDebugOutput (resolve : Nat → Option (String × Nat)) (stack : List Nat) : List OutLine :=
  (stack.filter (fun a => a != 0)).map
    (fun a =>
      match resolve a with
      | some fl => OutLine.frame fl.1 fl.2
      | none => OutLine.unresolvedAddress a)
  ++ [OutLine.stackDumpEnd]

/-- `std::unordered_map::insert_or_assign`: overwrite the record when the
key is present, append a fresh entry otherwise. -/
def insertOrAssign (k : Nat) (v : AllocationInfo) :
    List (Nat × AllocationInfo) → List (Nat × AllocationInfo)
  | [] => [(k, v)]
  | e :: rest => if e.1 == k then (k, v) :: rest else e :: insertOrAssign k v rest

/-- `std::unordered_map::erase(key)`: remove the entry for the key and
return the new contents together with the number of erased entries. -/
def eraseKey (k : Nat) :
    List (Nat × AllocationInfo) → List (Nat × AllocationInfo) × Nat
  | [] => ([], 0)
  | e :: rest =>
    if e.1 == k then (rest, 1)
    else
      let r := eraseKey k rest
      (e :: r.1, r.2)

/-- Whether the map holds an entry for the key. -/
def containsKey (k : Nat) (pool : List (Nat × AllocationInfo)) : Bool :=
  pool.any (fun e => e.1 == k)

/-- `unordered_map` lookup: the record stored for the key, if any. -/
def lookupKey (k : Nat) : List (Nat × AllocationInfo) → Option AllocationInfo
  | [] => none
  | e :: rest => if e.1 == k then some e.2 else lookupKey k rest

/-- The key set of the registry contents. -/
def keys (pool : List (Nat × AllocationInfo)) : List Nat := pool.map Prod.fst

/-- Sum of the recorded sizes, accumulated the way the destructor's
`totalLeaked += entry.second.size` loop does. -/
def sumSizes (pool : List (Nat × AllocationInfo)) : Nat :=
  pool.foldl (fun acc e => acc + e.2.size) 0

/-- `MemTracker` state: the suppression flag and the registry
(`memTrackerPool`). The critical section serializes every operation, so a
state-to-state function per operation is the faithful shallow embedding. -/
structure MemTracker where
  paused : Bool
  memTrackerPool : List (Nat × AllocationInfo)
deriving DecidableEq, Repr

/-- State after the `MemTracker` constructor ran: empty pool, `paused = false`. -/
def MemTracker.init : MemTracker := { paused := false, memTrackerPool := [] }

/-- `MemTracker::AddPointer`: under the lock, when not paused and the
pointer is non-null, set `paused`, `insert_or_assign` the record, clear
`paused`; otherwise do nothing. Emits no output. -/
def AddPointer (p size : Nat) (stk : List Nat) (t : MemTracker) : MemTracker × List OutLine :=
  if !t.paused && p != 0 then
    ({ paused := false, memTrackerPool := insertOrAssign p ⟨size, stk⟩ t.memTrackerPool }, [])
  else
    (t, [])

/-- The tracker state while `AddPointer` (or `RemovePointer`) is between
`paused = true` and `paused = false`: the state any re-entrant hook call
made by the map's own backing-storage allocation observes. -/
def AddPointerMidFlight (t : MemTracker) : MemTracker := { t with paused := true }

/-- `MemTracker::RemovePointer`: under the lock, when not paused and the
pointer is non-null, set `paused`, erase the key; when nothing was erased,
emit the untracked-free error line and a freshly captured stack dump;
clear `paused`. `stk` is the stack the inner `StackTracker s` captures. -/
def RemovePointer (resolve : Nat → Option (String × Nat)) (p : Nat) (stk : List Nat)
    (t : MemTracker) : MemTracker × List OutLine :=
  if !t.paused && p != 0 then
    let r := eraseKey p t.memTrackerPool
    if r.2 = 0 then
      ({ paused := false, memTrackerPool := r.1 },
        OutLine.untrackedFreeError :: DumpToDebugOutput resolve stk)
    else
      ({ paused := false, memTrackerPool := r.1 }, [])
  else
    (t, [])

/-- `MemTracker::Pause`: unconditionally set the suppression flag. -/
def Pause (t : MemTracker) : MemTracker := { t with paused := true }

/-- `MemTracker::Resume`: unconditionally clear the suppression flag. -/
def Resume (t : MemTracker) : MemTracker := { t with paused := false }

/-- The destructor's `for ( auto& entry : memTrackerPool )` loop: per
entry, the `Leak: <size> bytes` line, then that entry's stack dump. -/
def perEntryOutput (resolve : Nat → Option (String × Nat)) :
    List (Nat × AllocationInfo) → List OutLine
  | [] => []
  | e :: rest =>
    OutLine.leak e.2.size :: (DumpToDebugOutput resolve e.2.stack ++ perEntryOutput resolve rest)

/-- `MemTracker::~MemTracker`: set `paused`, then if the pool is non-empty
emit the header, one `Leak: <size> bytes` line plus stack dump per entry,
and the total; otherwise the no-leaks banner. -/
def MemTrackerDtor (resolve : Nat → Option (String × Nat)) (t : MemTracker) : List OutLine :=
  if t.memTrackerPool.length ≠ 0 then
    OutLine.memleaksHeader :: perEntryOutput resolve t.memTrackerPool
      ++ [OutLine.total (sumSizes t.memTrackerPool)]
  else
    [OutLine.noLeaksBanner]

/-- `operator new( size_t )`: call the real allocator, hand the result to
`AddPointer`, return the real allocator's pointer unchanged.
`mallocResult` is what `malloc( size )` returned (0 for failure); `stk`
is the stack `AllocationInfo`'s `StackTracker` member captures. -/
def operatorNew (mallocResult size : Nat) (stk : List Nat) (t : MemTracker) :
    (Nat × MemTracker) × List OutLine :=
  let r := AddPointer mallocResult size stk t
  ((mallocResult, r.1), r.2)

/-- `operator new[]( size_t )`: identical body to the scalar form. -/
def operatorNewArray (mallocResult size : Nat) (stk : List Nat) (t : MemTracker) :
    (Nat × MemTracker) × List OutLine :=
  let r := AddPointer mallocResult size stk t
  ((mallocResult, r.1), r.2)

/-- `operator new( size_t, const char*, int )`: the file/line arguments are
accepted and unused. -/
def operatorNewFileLine (file : String) (line : Int) (mallocResult size : Nat)
    (stk : List Nat) (t : MemTracker) : (Nat × MemTracker) × List OutLine :=
  let r := AddPointer mallocResult size stk t
  ((mallocResult, r.1), r.2)

/-- `operator new[]( size_t, const char*, int )`: file/line accepted and unused. -/
def operatorNewArrayFileLine (file : String) (line : Int) (mallocResult size : Nat)
    (stk : List Nat) (t : MemTracker) : (Nat × MemTracker) × List OutLine :=
  let r := AddPointer mallocResult size stk t
  ((mallocResult, r.1), r.2)

/-- `operator delete( void* )`: `RemovePointer` first, then `free`; the
first component is the pointer handed to `free`. -/
def operatorDelete (resolve : Nat → Option (String × Nat)) (pointer : Nat) (stk : List Nat)
    (t : MemTracker) : (Nat × MemTracker) × List OutLine :=
  let r := RemovePointer resolve pointer stk t
  ((pointer, r.1), r.2)

/-- `operator delete[]( void* )`: identical body to the scalar form. -/
def operatorDeleteArray (resolve : Nat → Option (String × Nat)) (pointer : Nat) (stk : List Nat)
    (t : MemTracker) : (Nat × MemTracker) × List OutLine :=
  let r := RemovePointer resolve pointer stk t
  ((pointer, r.1), r.2)

/-- `operator delete( void*, const char*, int )`: file/line accepted and unused. -/
def operatorDeleteFileLine (file : String) (line : Int) (resolve : Nat → Option (String × Nat))
    (pointer : Nat) (stk : List Nat) (t : MemTracker) : (Nat × MemTracker) × List OutLine :=
  let r := RemovePointer resolve pointer stk t
  ((pointer, r.1), r.2)

/-- `operator delete[]( void*, const char*, int )`: file/line accepted and unused. -/
def operatorDeleteArrayFileLine (file : String) (line : Int)
    (resolve : Nat → Option (String × Nat)) (pointer : Nat) (stk : List Nat)
    (t : MemTracker) : (Nat × MemTracker) × List OutLine :=
  let r := RemovePointer resolve pointer stk t
  ((pointer, r.1), r.2)

/-- One hook call observed at the tracker boundary: an allocation (the
address the real allocator returned, the requested size, the captured
stack) or a deallocation. -/
inductive Event where
  | alloc (p size : Nat) (stk : List Nat)
  | dealloc (p : Nat) (stk : List Nat)
deriving DecidableEq, Repr

/-- Run a sequence of hook calls through the hooked entry points,
accumulating every emission. -/
def runEvents (resolve : Nat → Option (String × Nat)) :
    List Event → MemTracker → MemTracker × List OutLine
  | [], t => (t, [])
  | Event.alloc p s stk :: rest, t =>
    let r := operatorNew p s stk t
    let r2 := runEvents resolve rest r.1.2
    (r2.1, r.2 ++ r2.2)
  | Event.dealloc p stk :: rest, t =>
    let r := operatorDelete resolve p stk t
    let r2 := runEvents resolve rest r.1.2
    (r2.1, r.2 ++ r2.2)

/-- The set of addresses returned by the hooked allocator and not yet
passed to the hooked deallocator, read off the event sequence alone. -/
def liveStep (s : Finset Nat) : Event → Finset Nat
  | Event.alloc p _ _ => insert p s
  | Event.dealloc p _ => s.erase p

/-- Live-address set after a whole event sequence. -/
def liveAfter (es : List Event) : Finset Nat := es.foldl liveStep ∅

/-- The event is not a null allocation: the real allocator returned a
non-null address. Deallocations are unconstrained. -/
def allocNonNull : Event → Bool
  | Event.alloc p _ _ => p != 0
  | Event.dealloc _ _ => true

/-- A sequence of allocate/deallocate pairs with matching addresses:
each pair allocates at its address, then immediately deallocates it. -/
def runPairs (resolve : Nat → Option (String × Nat)) :
    List (Nat × Nat) → MemTracker → MemTracker
  | [], t => t
  | q :: rest, t =>
    let t1 := (operatorNew q.1 q.2 [] t).1.2
    let t2 := (operatorDelete resolve q.1 [] t1).1.2
    runPairs resolve rest t2

/-- `n` consecutive `Pause()` calls. -/
def pauseN : Nat → MemTracker → MemTracker
  | 0, t => t
  | n + 1, t => Pause (pauseN n t)

/-! ### Lemmas about the embedded `unordered_map` operations -/

theorem mem_keys_insertOrAssign (k q : Nat) (v : AllocationInfo) :
    ∀ pool, q ∈ keys (insertOrAssign k v pool) ↔ q = k ∨ q ∈ keys pool := by
  intro pool
  induction pool with
  | nil => simp [insertOrAssign, keys]
  | cons e rest ih =>
    by_cases h : e.1 = k
    · simp [insertOrAssign, keys, h]
    · simp only [insertOrAssign, beq_iff_eq, h, if_false, keys, List.map_cons, List.mem_cons]
      rw [show (rest.map Prod.fst = keys rest) from rfl] at *
      rw [show ((insertOrAssign k v rest).map Prod.fst = keys (insertOrAssign k v rest)) from rfl]
      rw [ih]
      tauto

theorem nodup_keys_insertOrAssign (k : Nat) (v : AllocationInfo) :
    ∀ pool, (keys pool).Nodup → (keys (insertOrAssign k v pool)).Nodup := by
  intro pool
  induction pool with
  | nil => intro _; simp [insertOrAssign, keys]
  | cons e rest ih =>
    intro hnd
    simp only [keys, List.map_cons, List.nodup_cons] at hnd
    by_cases h : e.1 = k
    · simp only [insertOrAssign, beq_iff_eq, h, if_true, keys, List.map_cons, List.nodup_cons]
      exact ⟨by rw [← h]; exact hnd.1, hnd.2⟩
    · simp only [insertOrAssign, beq_iff_eq, h, if_false, keys, List.map_cons, List.nodup_cons]
      constructor
      · intro hmem
        rcases (mem_keys_insertOrAssign k e.1 v rest).mp hmem with h1 | h2
        · exact h h1
        · exact hnd.1 h2
      · exact ih hnd.2

theorem mem_keys_eraseKey (k q : Nat) :
    ∀ pool, (keys pool).Nodup →
      (q ∈ keys (eraseKey k pool).1 ↔ q ∈ keys pool ∧ q ≠ k) := by
  intro pool
  induction pool with
  | nil => intro _; simp [eraseKey, keys]
  | cons e rest ih =>
    intro hnd
    simp only [keys, List.map_cons, List.nodup_cons] at hnd
    by_cases h : e.1 = k
    · simp only [eraseKey, beq_iff_eq, h, if_true, keys, List.map_cons, List.mem_cons]
      constructor
      · intro hq
        refine ⟨Or.inr hq, ?_⟩
        intro hqk
        exact hnd.1 (by rw [← hqk] at h; rw [← h] at hq; exact hq)
      · rintro ⟨hq | hq, hne⟩
        · exact absurd hq hne
        · exact hq
    · simp only [eraseKey, beq_iff_eq, h, if_false, keys, List.map_cons, List.mem_cons]
      rw [show ((eraseKey k rest).1.map Prod.fst = keys (eraseKey k rest).1) from rfl]
      rw [show (rest.map Prod.fst = keys rest) from rfl]
      rw [ih hnd.2]
      constructor
      · rintro (hq | ⟨hq, hne⟩)
        · exact ⟨Or.inl hq, by rw [hq]; exact h⟩
        · exact ⟨Or.inr hq, hne⟩
      · rintro ⟨hq | hq, hne⟩
        · exact Or.inl hq
        · exact Or.inr ⟨hq, hne⟩

theorem nodup_keys_eraseKey (k : Nat) :
    ∀ pool, (keys pool).Nodup → (keys (eraseKey k pool).1).Nodup := by
  intro pool
  induction pool with
  | nil => intro _; simp [eraseKey, keys]
  | cons e rest ih =>
    intro hnd
    simp only [keys, List.map_cons, List.nodup_cons] at hnd
    by_cases h : e.1 = k
    · simp only [eraseKey, beq_iff_eq, h, if_true]
      exact hnd.2
    · simp only [eraseKey, beq_iff_eq, h, if_false, keys, List.map_cons, List.nodup_cons]
      refine ⟨?_, ih hnd.2⟩
      intro hmem
      have := (mem_keys_eraseKey k e.1 rest hnd.2).mp hmem
      exact hnd.1 this.1

theorem eraseKey_not_found (k : Nat) :
    ∀ pool, containsKey k pool = false → eraseKey k pool = (pool, 0) := by
  intro pool
  induction pool with
  | nil => intro _; rfl
  | cons e rest ih =>
    intro hc
    simp only [containsKey, List.any_cons, Bool.or_eq_false_iff] at hc
    simp only [eraseKey, hc.1, Bool.false_eq_true, if_false, ih hc.2]

theorem eraseKey_found (k : Nat) :
    ∀ pool, containsKey k pool = true → (eraseKey k pool).2 = 1 := by
  intro pool
  induction pool with
  | nil => intro h; simp [containsKey] at h
  | cons e rest ih =>
    intro hc
    by_cases h : e.1 == k
    · simp [eraseKey, h]
    · simp only [containsKey, List.any_cons, Bool.or_eq_true_iff] at hc
      rcases hc with hc | hc
      · exact absurd hc (by simpa using h)
      · simp only [eraseKey, h, Bool.false_eq_true, if_false]
        exact ih hc

theorem lookupKey_insertOrAssign (k : Nat) (v : AllocationInfo) :
    ∀ pool, lookupKey k (insertOrAssign k v pool) = some v := by
  intro pool
  induction pool with
  | nil => simp [insertOrAssign, lookupKey]
  | cons e rest ih =>
    by_cases h : e.1 = k
    · simp [insertOrAssign, lookupKey, h]
    · simp only [insertOrAssign, beq_iff_eq, h, if_false, lookupKey]
      exact ih

theorem countKey_eq_zero_of_not_mem (k : Nat) :
    ∀ pool, k ∉ keys pool → (pool.filter (fun e => e.1 == k)).length = 0 := by
  intro pool
  induction pool with
  | nil => intro _; rfl
  | cons e rest ih =>
    intro hk
    simp only [keys, List.map_cons, List.mem_cons] at hk
    push_neg at hk
    have h1 : (e.1 == k) = false := by simpa using fun h => hk.1 h.symm
    simp only [List.filter_cons, h1, Bool.false_eq_true, if_false]
    exact ih (by simpa [keys] using hk.2)

theorem countKey_insertOrAssign (k : Nat) (v : AllocationInfo) :
    ∀ pool, (keys pool).Nodup →
      ((insertOrAssign k v pool).filter (fun e => e.1 == k)).length = 1 := by
  intro pool
  induction pool with
  | nil => intro _; simp [insertOrAssign]
  | cons e rest ih =>
    intro hnd
    simp only [keys, List.map_cons, List.nodup_cons] at hnd
    by_cases h : e.1 = k
    · simp only [insertOrAssign, beq_iff_eq, h, if_true, List.filter_cons, beq_self_eq_true,
        if_true, List.length_cons]
      have : k ∉ keys rest := by rw [← h]; exact hnd.1
      rw [countKey_eq_zero_of_not_mem k rest this]
    · have h1 : (e.1 == k) = false := by simpa using h
      simp only [insertOrAssign, beq_iff_eq, h, if_false, List.filter_cons, h1,
        Bool.false_eq_true, if_false]
      exact ih hnd.2

/-! ### Unfolding lemmas for the registry operations -/

theorem AddPointer_active (p sz : Nat) (stk : List Nat) (t : MemTracker)
    (h : t.paused = false) (hp : p ≠ 0) :
    AddPointer p sz stk t =
      ({ paused := false, memTrackerPool := insertOrAssign p ⟨sz, stk⟩ t.memTrackerPool }, []) := by
  simp [AddPointer, h, hp]

theorem AddPointer_suppressed (p sz : Nat) (stk : List Nat) (t : MemTracker)
    (h : t.paused = true) : AddPointer p sz stk t = (t, []) := by
  simp [AddPointer, h]

theorem AddPointer_null (sz : Nat) (stk : List Nat) (t : MemTracker) :
    AddPointer 0 sz stk t = (t, []) := by
  simp [AddPointer]

theorem RemovePointer_suppressed (resolve : Nat → Option (String × Nat)) (p : Nat)
    (stk : List Nat) (t : MemTracker) (h : t.paused = true) :
    RemovePointer resolve p stk t = (t, []) := by
  simp [RemovePointer, h]

theorem RemovePointer_null (resolve : Nat → Option (String × Nat)) (stk : List Nat)
    (t : MemTracker) : RemovePointer resolve 0 stk t = (t, []) := by
  simp [RemovePointer]

theorem RemovePointer_found (resolve : Nat → Option (String × Nat)) (p : Nat)
    (stk : List Nat) (t : MemTracker) (h : t.paused = false) (hp : p ≠ 0)
    (hc : containsKey p t.memTrackerPool = true) :
    RemovePointer resolve p stk t =
      ({ paused := false, memTrackerPool := (eraseKey p t.memTrackerPool).1 }, []) := by
  have h1 := eraseKey_found p t.memTrackerPool hc
  simp [RemovePointer, h, hp, h1]

theorem RemovePointer_notfound (resolve : Nat → Option (String × Nat)) (p : Nat)
    (stk : List Nat) (t : MemTracker) (h : t.paused = false) (hp : p ≠ 0)
    (hc : containsKey p t.memTrackerPool = false) :
    RemovePointer resolve p stk t =
      ({ paused := false, memTrackerPool := t.memTrackerPool },
        OutLine.untrackedFreeError :: DumpToDebugOutput resolve stk) := by
  have h1 := eraseKey_not_found p t.memTrackerPool hc
  simp [RemovePointer, h, hp, h1]

/-- The state component of an active, non-null `RemovePointer`: the flag is
cleared back and the pool has the key erased, regardless of whether the
erase found the key. -/
theorem RemovePointer_fst (resolve : Nat → Option (String × Nat)) (p : Nat)
    (stk : List Nat) (t : MemTracker) (h : t.paused = false) (hp : p ≠ 0) :
    (RemovePointer resolve p stk t).1 =
      { paused := false, memTrackerPool := (eraseKey p t.memTrackerPool).1 } := by
  by_cases hc : (eraseKey p t.memTrackerPool).2 = 0 <;> simp [RemovePointer, h, hp, hc]

/-- Any sequence of hook calls on a suppressed tracker leaves the state as
is and emits nothing. -/
theorem runEvents_suppressed (resolve : Nat → Option (String × Nat)) :
    ∀ (es : List Event) (t : MemTracker), t.paused = true →
      runEvents resolve es t = (t, []) := by
  intro es
  induction es with
  | nil => intro t _; rfl
  | cons e rest ih =>
    intro t ht
    cases e with
    | alloc p s stk =>
      simp only [runEvents, operatorNew, AddPointer_suppressed p s stk t ht, ih t ht,
        List.nil_append]
    | dealloc p stk =>
      simp only [runEvents, operatorDelete, RemovePointer_suppressed resolve p stk t ht,
        ih t ht, List.nil_append]

/-- Main trace invariant: starting from an active tracker whose key set is
`s` (with unique, non-null keys), after any event sequence with non-null
allocations the tracker is still active, its keys are unique and non-null,
and its key set is the fold of `liveStep` over the events. -/
theorem runEvents_keys (resolve : Nat → Option (String × Nat)) :
    ∀ (es : List Event), (∀ e ∈ es, allocNonNull e = true) →
      ∀ (t : MemTracker) (s : Finset Nat), t.paused = false →
        (keys t.memTrackerPool).Nodup → (0 : Nat) ∉ s →
        (∀ q, q ∈ keys t.memTrackerPool ↔ q ∈ s) →
        (runEvents resolve es t).1.paused = false ∧
        (keys (runEvents resolve es t).1.memTrackerPool).Nodup ∧
        (∀ q, q ∈ keys (runEvents resolve es t).1.memTrackerPool ↔ q ∈ es.foldl liveStep s) := by
  intro es
  induction es with
  | nil =>
    intro _ t s ht hnd _ hks
    exact ⟨ht, hnd, hks⟩
  | cons e rest ih =>
    intro hnn t s ht hnd h0 hks
    have hrest : ∀ e ∈ rest, allocNonNull e = true := fun e he => hnn e (List.mem_cons_of_mem _ he)
    cases e with
    | alloc p sz stk =>
      have hp : p ≠ 0 := by
        have := hnn (Event.alloc p sz stk) (List.mem_cons_self _ _)
        simpa [allocNonNull] using this
      have hstep : runEvents resolve (Event.alloc p sz stk :: rest) t =
          (let r := operatorNew p sz stk t
           let r2 := runEvents resolve rest r.1.2
           (r2.1, r.2 ++ r2.2)) := rfl
      rw [hstep]
      simp only [operatorNew, AddPointer_active p sz stk t ht hp]
      have hnd' : (keys (insertOrAssign p ⟨sz, stk⟩ t.memTrackerPool)).Nodup :=
        nodup_keys_insertOrAssign p ⟨sz, stk⟩ t.memTrackerPool hnd
      have h0' : (0 : Nat) ∉ insert p s := by
        simp only [Finset.mem_insert]
        rintro (h | h)
        · exact hp h.symm
        · exact h0 h
      have hks' : ∀ q, q ∈ keys (insertOrAssign p ⟨sz, stk⟩ t.memTrackerPool) ↔
          q ∈ insert p s := by
        intro q
        rw [mem_keys_insertOrAssign, Finset.mem_insert, hks]
      have := ih hrest { paused := false, memTrackerPool := insertOrAssign p ⟨sz, stk⟩ t.memTrackerPool }
        (insert p s) rfl hnd' h0' hks'
      simpa [liveStep] using this
    | dealloc p stk =>
      have hstep : runEvents resolve (Event.dealloc p stk :: rest) t =
          (let r := operatorDelete resolve p stk t
           let r2 := runEvents resolve rest r.1.2
           (r2.1, r.2 ++ r2.2)) := rfl
      rw [hstep]
      by_cases hp : p = 0
      · subst hp
        simp only [operatorDelete, RemovePointer_null]
        have hs : s.erase 0 = s := Finset.erase_eq_of_not_mem h0
        have := ih hrest t s ht hnd h0 hks
        simpa [liveStep, hs] using this
      · have hfst := RemovePointer_fst resolve p stk t ht hp
        have hpool : ∀ q, q ∈ keys (eraseKey p t.memTrackerPool).1 ↔ q ∈ s.erase p := by
          intro q
          rw [mem_keys_eraseKey p q t.memTrackerPool hnd, Finset.mem_erase, hks]
          tauto
        have hnd' := nodup_keys_eraseKey p t.memTrackerPool hnd
        have h0' : (0 : Nat) ∉ s.erase p := fun h => h0 (Finset.mem_of_mem_erase h)
        have hih := ih hrest
          { paused := false, memTrackerPool := (eraseKey p t.memTrackerPool).1 }
          (s.erase p) rfl hnd' h0' hpool
        simp only [operatorDelete, hfst]
        simpa [liveStep] using hih

/-- The stack lines the spec's Reporting behavior prescribes for one
record, stated from the spec's words to be compared with the source's
`DumpToDebugOutput`: the record's resolved stack — a file/line line per
frame the symbolication service resolves, a raw-address line per
unresolved frame (null slots of the fixed-depth capture carry no frame) —
closed by the blank line. -/
def specStackLines (resolve : Nat → Option (String × Nat)) (stack : List Nat) : List OutLine :=
  (stack.filter (fun a => a != 0)).map
    (fun a =>
      match resolve a with
      | some fl => OutLine.frame fl.1 fl.2
      | none => OutLine.unresolvedAddress a)
  ++ [OutLine.stackDumpEnd]

/-- The report body the spec's Reporting behavior prescribes: for every
remaining record, its `Leak: <size> bytes` line followed by that record's
stack lines. -/
def specRecordLines (resolve : Nat → Option (String × Nat))
    (pool : List (Nat × AllocationInfo)) : List OutLine :=
  (pool.map (fun e => OutLine.leak e.2.size :: specStackLines resolve e.2.stack)).flatten

/-! ### Lemmas about the report output -/

/-- The source's stack dump is exactly the spec's per-record stack lines. -/
theorem dump_eq_specStackLines (resolve : Nat → Option (String × Nat)) (stk : List Nat) :
    DumpToDebugOutput resolve stk = specStackLines resolve stk := rfl

/-- The destructor's per-entry loop output is exactly the spec's record
lines: each record's leak line followed by that record's stack lines. -/
theorem perEntryOutput_eq_specRecordLines (resolve : Nat → Option (String × Nat)) :
    ∀ pool, perEntryOutput resolve pool = specRecordLines resolve pool := by
  intro pool
  induction pool with
  | nil => rfl
  | cons e rest ih =>
    simp only [perEntryOutput, specRecordLines, List.map_cons, List.flatten_cons,
      dump_eq_specStackLines, List.cons_append, ih]

/-- Every line a stack dump emits is a frame line, a raw-address line or
the closing blank line. -/
theorem dump_shapes (resolve : Nat → Option (String × Nat)) (stk : List Nat) :
    ∀ l ∈ DumpToDebugOutput resolve stk,
      (∃ f n, l = OutLine.frame f n) ∨ (∃ a, l = OutLine.unresolvedAddress a) ∨
        l = OutLine.stackDumpEnd := by
  intro l hl
  simp only [DumpToDebugOutput, List.mem_append, List.mem_map, List.mem_singleton] at hl
  rcases hl with ⟨a, _, ha⟩ | h
  · cases hres : resolve a with
    | none => rw [hres] at ha; exact Or.inr (Or.inl ⟨a, ha.symm⟩)
    | some fl => rw [hres] at ha; exact Or.inl ⟨fl.1, fl.2, ha.symm⟩
  · exact Or.inr (Or.inr h)

theorem count_leak_dump (resolve : Nat → Option (String × Nat)) (stk : List Nat) (s : Nat) :
    (DumpToDebugOutput resolve stk).count (OutLine.leak s) = 0 := by
  rw [List.count_eq_zero]
  intro hmem
  rcases dump_shapes resolve stk _ hmem with ⟨f, n, h⟩ | ⟨a, h⟩ | h <;> exact OutLine.noConfusion h

theorem count_error_dump (resolve : Nat → Option (String × Nat)) (stk : List Nat) :
    (DumpToDebugOutput resolve stk).count OutLine.untrackedFreeError = 0 := by
  rw [List.count_eq_zero]
  intro hmem
  rcases dump_shapes resolve stk _ hmem with ⟨f, n, h⟩ | ⟨a, h⟩ | h <;> exact OutLine.noConfusion h

/-- In the destructor's per-entry output, the `Leak:` lines for a given
size are in bijection with the records of that size. -/
theorem count_leak_entries (resolve : Nat → Option (String × Nat)) (s : Nat) :
    ∀ pool : List (Nat × AllocationInfo),
      (perEntryOutput resolve pool).count (OutLine.leak s) =
        (pool.filter (fun e => e.2.size == s)).length := by
  intro pool
  induction pool with
  | nil => rfl
  | cons e rest ih =>
    simp only [perEntryOutput, List.count_cons, List.count_append, ih, count_leak_dump,
      List.filter_cons]
    by_cases h : e.2.size = s
    · have h1 : (OutLine.leak e.2.size == OutLine.leak s) = true := by simp [h]
      have h2 : (e.2.size == s) = true := by simp [h]
      simp only [h1, h2, if_true, List.length_cons]
      omega
    · have h1 : (OutLine.leak e.2.size == OutLine.leak s) = false := by simp [h]
      have h2 : (e.2.size == s) = false := by simpa using h
      simp only [h1, h2, Bool.false_eq_true, if_false]
      omega

theorem sumSizes_eq_sum (pool : List (Nat × AllocationInfo)) :
    sumSizes pool = (pool.map (fun e => e.2.size)).sum := by
  have aux : ∀ (l : List (Nat × AllocationInfo)) (acc : Nat),
      l.foldl (fun a e => a + e.2.size) acc = acc + (l.map (fun e => e.2.size)).sum := by
    intro l
    induction l with
    | nil => intro acc; simp
    | cons e rest ih =>
      intro acc
      simp only [List.foldl_cons, List.map_cons, List.sum_cons, ih]
      omega
  simpa [sumSizes] using aux pool 0

/-! ### Claim theorems -/

/-- C1: for every hook-call sequence with tracking active throughout and
non-null allocator results, the registry's key set equals the set of
addresses returned by the hooked allocation entry points and not yet
passed to a hooked deallocation entry point. -/
theorem registry_keyset_invariant (resolve : Nat → Option (String × Nat)) (es : List Event)
    (hnn : ∀ e ∈ es, allocNonNull e = true) :
    ∀ q, q ∈ keys (runEvents resolve es MemTracker.init).1.memTrackerPool ↔
      q ∈ liveAfter es := by
  have h := runEvents_keys resolve es hnn MemTracker.init ∅ rfl
    (by simp [MemTracker.init, keys]) (by simp) (by simp [MemTracker.init, keys])
  exact h.2.2

/-- Witness for C1 at a concrete trace. -/
theorem registry_keyset_invariant_witness :
    (7 ∈ keys (runEvents (fun _ => none)
        [Event.alloc 5 64 [], Event.alloc 7 32 [], Event.dealloc 5 []]
        MemTracker.init).1.memTrackerPool ↔
      7 ∈ liveAfter [Event.alloc 5 64 [], Event.alloc 7 32 [], Event.dealloc 5 []]) :=
  registry_keyset_invariant (fun _ => none)
    [Event.alloc 5 64 [], Event.alloc 7 32 [], Event.dealloc 5 []] (by decide) 7

/-- Running any list of allocate-then-deallocate pairs from the freshly
constructed tracker returns it to the freshly constructed state. -/
theorem runPairs_init (resolve : Nat → Option (String × Nat)) :
    ∀ ps : List (Nat × Nat), runPairs resolve ps MemTracker.init = MemTracker.init := by
  intro ps
  induction ps with
  | nil => rfl
  | cons q rest ih =>
    show runPairs resolve rest
      ((operatorDelete resolve q.1 []
        ((operatorNew q.1 q.2 [] MemTracker.init).1.2)).1.2) = MemTracker.init
    have hstate : (operatorDelete resolve q.1 []
        ((operatorNew q.1 q.2 [] MemTracker.init).1.2)).1.2 = MemTracker.init := by
      by_cases hp : q.1 = 0
      · simp [operatorNew, operatorDelete, AddPointer, RemovePointer, hp, MemTracker.init]
      · simp [operatorNew, operatorDelete, AddPointer, RemovePointer, hp, MemTracker.init,
          insertOrAssign, eraseKey]
    rw [hstate]
    exact ih

/-- C2: after any sequence of allocate/deallocate pairs with matching
addresses completes on an active tracker, the registry is empty. -/
theorem matched_pairs_leave_registry_empty (resolve : Nat → Option (String × Nat))
    (ps : List (Nat × Nat)) :
    (runPairs resolve ps MemTracker.init).memTrackerPool = [] := by
  rw [runPairs_init resolve ps]
  rfl

/-- C5: the re-entrant hook call made while the suppression flag is set
inside a registry mutation returns the real allocator's pointer, leaves
the whole tracker state (registry included) unchanged, and emits nothing:
the internal node is never recorded. -/
theorem reentrant_alloc_skipped (m sz : Nat) (stk : List Nat) (t : MemTracker) :
    (AddPointerMidFlight t).paused = true ∧
    (operatorNew m sz stk (AddPointerMidFlight t)).1.1 = m ∧
    (operatorNew m sz stk (AddPointerMidFlight t)).1.2 = AddPointerMidFlight t ∧
    (operatorNew m sz stk (AddPointerMidFlight t)).2 = [] := by
  refine ⟨rfl, rfl, ?_, ?_⟩ <;>
    simp [operatorNew, AddPointerMidFlight, AddPointer]

/-- C6: after `Pause()`, every `Add`/`Remove` (and any whole sequence of
hook calls) leaves the tracker unchanged; `Resume()` clears the flag and
the previously recorded entries survive untouched. -/
theorem pause_blocks_resume_restores (resolve : Nat → Option (String × Nat))
    (es : List Event) (t : MemTracker) (p sz : Nat) (stk : List Nat) :
    (Pause t).memTrackerPool = t.memTrackerPool ∧
    AddPointer p sz stk (Pause t) = (Pause t, []) ∧
    RemovePointer resolve p stk (Pause t) = (Pause t, []) ∧
    (runEvents resolve es (Pause t)).1 = Pause t ∧
    (Resume (Pause t)).paused = false ∧
    (Resume (Pause t)).memTrackerPool = t.memTrackerPool := by
  refine ⟨rfl, AddPointer_suppressed p sz stk (Pause t) rfl,
    RemovePointer_suppressed resolve p stk (Pause t) rfl, ?_, rfl, rfl⟩
  rw [runEvents_suppressed resolve es (Pause t) rfl]

/-- C3: the teardown report is the single no-leaks banner when the
registry is empty; otherwise it starts with the header, carries exactly
one `Leak: <size> bytes` line per remaining record, each leak line
followed by that record's resolved stack (a raw-address line per
unresolved frame), ends with the `Total bytes leaked:` line whose sum is
the sum of the remaining sizes, and every line renders in the source's
exact format. -/
theorem teardown_report (resolve : Nat → Option (String × Nat)) (t : MemTracker) :
    (t.memTrackerPool = [] → MemTrackerDtor resolve t = [OutLine.noLeaksBanner]) ∧
    (t.memTrackerPool ≠ [] →
      (MemTrackerDtor resolve t).head? = some OutLine.memleaksHeader ∧
      (∀ s, (MemTrackerDtor resolve t).count (OutLine.leak s) =
        (t.memTrackerPool.filter (fun e => e.2.size == s)).length) ∧
      (MemTrackerDtor resolve t).getLast? =
        some (OutLine.total (sumSizes t.memTrackerPool)) ∧
      sumSizes t.memTrackerPool = (t.memTrackerPool.map (fun e => e.2.size)).sum ∧
      MemTrackerDtor resolve t =
        OutLine.memleaksHeader :: specRecordLines resolve t.memTrackerPool
          ++ [OutLine.total (sumSizes t.memTrackerPool)]) ∧
    render OutLine.memleaksHeader = "\n--- Memleaks start here ---\n\n" ∧
    (∀ s, render (OutLine.leak s) = "Leak: " ++ toString s ++ " bytes\n") ∧
    (∀ f l, render (OutLine.frame f l) = "\t\t" ++ f ++ " (" ++ toString l ++ ")\n") ∧
    (∀ a, render (OutLine.unresolvedAddress a) =
      "\t\tUnresolved address: " ++ formatPointer a ++ "\n") ∧
    render OutLine.stackDumpEnd = "\n" ∧
    (∀ n, render (OutLine.total n) = "\tTotal bytes leaked: " ++ toString n ++ "\n\n") := by
  refine ⟨?_, ?_, rfl, fun s => rfl, fun f l => rfl, fun a => rfl, rfl, fun n => rfl⟩
  · intro h
    simp [MemTrackerDtor, h]
  · intro h
    have hlen : t.memTrackerPool.length ≠ 0 := by
      simpa [List.length_eq_zero] using h
    have hdtor : MemTrackerDtor resolve t =
        (OutLine.memleaksHeader :: perEntryOutput resolve t.memTrackerPool) ++
          [OutLine.total (sumSizes t.memTrackerPool)] := by
      simp [MemTrackerDtor, hlen]
    refine ⟨?_, ?_, ?_, sumSizes_eq_sum t.memTrackerPool, ?_⟩
    · rw [hdtor]
      rfl
    · intro s
      rw [hdtor]
      simp only [List.cons_append, List.count_cons, List.count_append,
        count_leak_entries resolve s t.memTrackerPool]
      simp [List.count_singleton]
    · rw [hdtor, List.getLast?_concat]
    · rw [hdtor, perEntryOutput_eq_specRecordLines resolve t.memTrackerPool,
        List.cons_append]

/-- Witness for C3: a single leaked 64-byte record with one unresolved
frame yields one `Leak: 64 bytes` line, that record's raw-address stack
line right after it, and a `Total bytes leaked: 64` trailer. -/
theorem teardown_report_witness :
    (MemTrackerDtor (fun _ => none)
      ⟨true, [(5, ⟨64, [12]⟩)]⟩).count (OutLine.leak 64) = 1 ∧
    (MemTrackerDtor (fun _ => none)
      ⟨true, [(5, ⟨64, [12]⟩)]⟩).getLast? = some (OutLine.total 64) ∧
    MemTrackerDtor (fun _ => none) ⟨true, [(5, ⟨64, [12]⟩)]⟩ =
      [OutLine.memleaksHeader, OutLine.leak 64, OutLine.unresolvedAddress 12,
        OutLine.stackDumpEnd, OutLine.total 64] := by
  have h := (teardown_report (fun _ => none) ⟨true, [(5, ⟨64, [12]⟩)]⟩).2.1 (by decide)
  refine ⟨?_, h.2.2.1, ?_⟩
  · rw [h.2.1 64]
    rfl
  · rw [h.2.2.2.2]
    rfl

/-- C4: an active deallocation of a non-null address absent from the
registry leaves the registry and the flag unchanged and emits exactly one
untracked-free diagnostic: the error line followed by the freshly
captured stack dump. -/
theorem untracked_free_diagnostic (resolve : Nat → Option (String × Nat)) (p : Nat)
    (stk : List Nat) (t : MemTracker) (h : t.paused = false) (hp : p ≠ 0)
    (hc : containsKey p t.memTrackerPool = false) :
    (RemovePointer resolve p stk t).1.memTrackerPool = t.memTrackerPool ∧
    (RemovePointer resolve p stk t).1.paused = t.paused ∧
    (RemovePointer resolve p stk t).2 =
      OutLine.untrackedFreeError :: DumpToDebugOutput resolve stk ∧
    (RemovePointer resolve p stk t).2.count OutLine.untrackedFreeError = 1 := by
  rw [RemovePointer_notfound resolve p stk t h hp hc]
  refine ⟨rfl, h.symm, rfl, ?_⟩
  simp [List.count_cons, count_error_dump]

/-- Witness for C4 at a concrete untracked free. -/
theorem untracked_free_diagnostic_witness :
    (RemovePointer (fun _ => none) 5 [] MemTracker.init).1.memTrackerPool =
      MemTracker.init.memTrackerPool ∧
    (RemovePointer (fun _ => none) 5 [] MemTracker.init).2.count
      OutLine.untrackedFreeError = 1 := by
  have h := untracked_free_diagnostic (fun _ => none) 5 [] MemTracker.init rfl
    (by decide) (by decide)
  exact ⟨h.1, h.2.2.2⟩

/-- C7: a duplicate `Add` for a still-live address overwrites the record
with the new size and stack, emits nothing, and leaves exactly one record
for that address. -/
theorem duplicate_add_overwrites (p sz2 : Nat) (stk2 : List Nat) (t : MemTracker)
    (h : t.paused = false) (hp : p ≠ 0) (hnd : (keys t.memTrackerPool).Nodup)
    (hlive : containsKey p t.memTrackerPool = true) :
    (AddPointer p sz2 stk2 t).2 = [] ∧
    lookupKey p (AddPointer p sz2 stk2 t).1.memTrackerPool = some ⟨sz2, stk2⟩ ∧
    ((AddPointer p sz2 stk2 t).1.memTrackerPool.filter (fun e => e.1 == p)).length = 1 := by
  rw [AddPointer_active p sz2 stk2 t h hp]
  exact ⟨rfl, lookupKey_insertOrAssign p ⟨sz2, stk2⟩ t.memTrackerPool,
    countKey_insertOrAssign p ⟨sz2, stk2⟩ t.memTrackerPool hnd⟩

/-- Witness for C7: re-adding a live address replaces its record. -/
theorem duplicate_add_overwrites_witness :
    lookupKey 5 ((AddPointer 5 32 [9]
      ⟨false, [(5, ⟨64, []⟩)]⟩).1.memTrackerPool) = some ⟨32, [9]⟩ ∧
    (((AddPointer 5 32 [9]
      ⟨false, [(5, ⟨64, []⟩)]⟩).1.memTrackerPool).filter (fun e => e.1 == 5)).length = 1 := by
  have h := duplicate_add_overwrites 5 32 [9] ⟨false, [(5, ⟨64, []⟩)]⟩ rfl
    (by decide) (by decide) (by decide)
  exact ⟨h.2.1, h.2.2⟩

/-- C8: the allocation entry point returns exactly the real allocator's
pointer, and a null allocator result is not added to the registry: the
call is a no-op on the tracker and emits nothing. -/
theorem hook_returns_allocator_pointer (mallocResult sz : Nat) (stk : List Nat)
    (t : MemTracker) :
    (operatorNew mallocResult sz stk t).1.1 = mallocResult ∧
    (mallocResult = 0 →
      (operatorNew mallocResult sz stk t).1.2 = t ∧
      (operatorNew mallocResult sz stk t).2 = []) := by
  refine ⟨rfl, ?_⟩
  intro h0
  subst h0
  simp [operatorNew, AddPointer_null]

/-- Witness for C8 at a failed (null) allocation. -/
theorem hook_returns_allocator_pointer_witness :
    (operatorNew 0 64 [] MemTracker.init).1.2 = MemTracker.init ∧
    (operatorNew 0 64 [] MemTracker.init).2 = [] :=
  (hook_returns_allocator_pointer 0 64 [] MemTracker.init).2 rfl

/-- C9: the four allocation entry points are pairwise behaviorally
equivalent, as are the four deallocation entry points: the file/line
arguments have no effect on the result, the freed pointer, or the
registry update. -/
theorem overloads_equivalent (file : String) (line : Int)
    (resolve : Nat → Option (String × Nat)) (m sz p : Nat) (stk : List Nat)
    (t : MemTracker) :
    operatorNewArray m sz stk t = operatorNew m sz stk t ∧
    operatorNewFileLine file line m sz stk t = operatorNew m sz stk t ∧
    operatorNewArrayFileLine file line m sz stk t = operatorNew m sz stk t ∧
    operatorDeleteArray resolve p stk t = operatorDelete resolve p stk t ∧
    operatorDeleteFileLine file line resolve p stk t = operatorDelete resolve p stk t ∧
    operatorDeleteArrayFileLine file line resolve p stk t = operatorDelete resolve p stk t :=
  ⟨rfl, rfl, rfl, rfl, rfl, rfl⟩

/-- C10: `Pause` and `Resume` are idempotent unconditional assignments
with no nesting count, and one `Resume` after any positive number of
consecutive `Pause` calls restores fully active tracking with the pool
intact. -/
theorem pause_resume_idempotent (t : MemTracker) (n : Nat) :
    Pause (Pause t) = Pause t ∧
    Resume (Resume t) = Resume t ∧
    (Resume (pauseN (n + 1) t)).paused = false ∧
    (Resume (pauseN (n + 1) t)).memTrackerPool = t.memTrackerPool ∧
    Resume (pauseN (n + 1) t) = Resume (Pause t) := by
  have hpool : ∀ m, (pauseN m t).memTrackerPool = t.memTrackerPool := by
    intro m
    induction m with
    | zero => rfl
    | succ k ih => simp [pauseN, Pause, ih]
  refine ⟨rfl, rfl, rfl, hpool (n + 1), ?_⟩
  simp [Resume, Pause, hpool (n + 1)]

end LeakTracker
